import Mathlib

set_option maxHeartbeats 1000000
set_option linter.unusedVariables false

namespace Fusis

/-- Destination record, following the `types.Destination` struct used by
`ipvs/state.go`: name, host (real-server IP), port, weight, mode
(forwarding method) and the service-id back-reference. -/
structure Destination where
  name : String
  host : String
  port : Nat
  weight : Int
  mode : String
  serviceId : String
deriving DecidableEq, Repr

/-- Service record, following the `types.Service` struct used by
`ipvs/state.go`: logical name, host (the VIP), port, protocol, scheduling
method, and the inlined destinations slice (used by snapshots). -/
structure Service where
  name : String
  host : String
  port : Nat
  protocol : String
  scheduler : String
  destinations : List Destination
deriving DecidableEq, Repr

/-- Modelled from the spec: the `api/types` package defining
`Service.GetId` is not under src/. `GetService(name)` in `ipvs/state.go`
indexes the services map directly with the name and tests the stored
value's `Name` field against the empty string, so the catalog identifier
of a Service is its name. -/
def Service.GetId (s : Service) : String := s.name

/-- Modelled from the spec: the `api/types` package defining
`Destination.GetId` is not under src/. `GetDestination(name)` in
`ipvs/state.go` indexes the destinations map directly with the name and
tests the stored value's `Name` field, so the catalog identifier of a
Destination is its name. -/
def Destination.GetId (d : Destination) : String := d.name

/-- Go zero value of `types.Service`, produced by indexing a map at a
missing key. -/
def Service.zero : Service := ⟨"", "", 0, "", "", []⟩

/-- Go zero value of `types.Destination`. -/
def Destination.zero : Destination := ⟨"", "", 0, 0, "", ""⟩

/-- FusisState: the two Go maps of `ipvs/state.go`, keyed by the composite
identifier. A Go map is modelled as an association list with distinct
keys; iteration order is the list order (unobservable in Go, so theorems
about `GetServices` compare results up to permutation or prove plain
equality, which is stronger). -/
structure FusisState where
  services : List (String × Service)
  destinations : List (String × Destination)
deriving DecidableEq, Repr

/-- NewFusisState: both maps empty. -/
def emptyState : FusisState := ⟨[], []⟩

/-- Go map indexing `m[k]` restricted to present keys. -/
def lookupKey {α : Type} (m : List (String × α)) (k : String) : Option α :=
  (m.find? (fun p => p.1 == k)).map (fun p => p.2)

/-- Go `delete(m, k)`: drop the entry stored under `k`. -/
def mapErase {α : Type} (k : String) (m : List (String × α)) : List (String × α) :=
  m.filter (fun p => !(p.1 == k))

/-- Go `m[k] = v`: overwrite the entry stored under `k` in place when the
key is present, append a fresh entry otherwise (Go maps are unordered, so
any placement refines them; in-place overwrite keeps the representation
stable). -/
def mapInsert {α : Type} (k : String) (v : α) (m : List (String × α)) : List (String × α) :=
  if (lookupKey m k).isSome then m.map (fun p => if p.1 == k then (k, v) else p)
  else m ++ [(k, v)]

/-- Typed errors of `api/types`: ErrServiceNotFound / ErrDestinationNotFound. -/
inductive StateErr
  | serviceNotFound
  | destinationNotFound
deriving DecidableEq, Repr

/-- FusisState.getDestinations: populate the Destinations field of a copy
of `svc` by scanning the destinations map and filtering on service-id. -/
def FusisState.getDestinations (s : FusisState) (svc : Service) : Service :=
  { svc with destinations := (s.destinations.map (fun p => p.2)).filter (fun d => d.serviceId == svc.GetId) }

/-- FusisState.GetServices: every stored service, each populated with its
destinations. -/
def FusisState.GetServices (s : FusisState) : List Service :=
  s.services.map (fun p => s.getDestinations p.2)

/-- FusisState.GetService: index the services map (zero value when
missing), return the typed not-found error when the resulting value has
an empty Name, otherwise a populated copy. -/
def FusisState.GetService (s : FusisState) (name : String) : Except StateErr Service :=
  let svc := (lookupKey s.services name).getD Service.zero
  if svc.name = "" then Except.error StateErr.serviceNotFound
  else Except.ok (s.getDestinations svc)

/-- FusisState.GetDestination: index the destinations map (zero value when
missing), typed not-found error when the value has an empty Name. -/
def FusisState.GetDestination (s : FusisState) (name : String) : Except StateErr Destination :=
  let dst := (lookupKey s.destinations name).getD Destination.zero
  if dst.name = "" then Except.error StateErr.destinationNotFound
  else Except.ok dst

/-- FusisState.AddService: `s.Services[svc.GetId()] = *svc` — overwrite the
entry at the service's id. -/
def FusisState.AddService (s : FusisState) (svc : Service) : FusisState :=
  { s with services := mapInsert svc.GetId svc s.services }

/-- FusisState.DeleteService: `delete(s.Services, svc.GetId())`. It does
not touch the destinations map. -/
def FusisState.DeleteService (s : FusisState) (svc : Service) : FusisState :=
  { s with services := mapErase svc.GetId s.services }

/-- FusisState.AddDestination: `s.Destinations[dst.GetId()] = *dst`. -/
def FusisState.AddDestination (s : FusisState) (dst : Destination) : FusisState :=
  { s with destinations := mapInsert dst.GetId dst s.destinations }

/-- FusisState.DeleteDestination: `delete(s.Destinations, dst.GetId())`. -/
def FusisState.DeleteDestination (s : FusisState) (dst : Destination) : FusisState :=
  { s with destinations := mapErase dst.GetId s.destinations }

/-- Key-distinctness: intrinsic to Go maps (a map cannot hold two entries
with the same key); the association-list representation states it as a
proposition. -/
def NodupKeys (s : FusisState) : Prop :=
  (s.services.map (fun p => p.1)).Nodup ∧ (s.destinations.map (fun p => p.1)).Nodup

/-- Every entry is stored under its value's id. Maintained by the mutation
operations, which always key by `GetId`. -/
def KeysMatch (s : FusisState) : Prop :=
  (∀ p ∈ s.services, p.1 = p.2.GetId) ∧ (∀ p ∈ s.destinations, p.1 = p.2.GetId)

/-- Observable equality of two catalog states: all three read operations
of the `ipvs.State` interface agree, with `GetServices` compared up to
permutation because Go map iteration order is not observable. -/
def ObsEquiv (a b : FusisState) : Prop :=
  (∀ n, a.GetService n = b.GetService n) ∧
  (∀ n, a.GetDestination n = b.GetDestination n) ∧
  a.GetServices.Perm b.GetServices

/-- CommandOp: the four enumerated operations of the replicated log. -/
inductive CommandOp
  | addServiceOp
  | delServiceOp
  | addDestinationOp
  | delDestinationOp
deriving DecidableEq, Repr

/-- Command: the unit of replication. The Service and Destination pointers
of the Go struct are Option values (nil pointers possible after decoding). -/
structure Command where
  op : CommandOp
  service : Option Service
  destination : Option Destination
deriving DecidableEq, Repr

/-- Outcome of one Engine.Apply call: Go either panics (unmarshal failure,
or a nil-pointer dereference inside a State method) or returns the value
received on the reply channel. An error return is `returned (some msg)`;
a nil return is `returned none`. -/
inductive ApplyOutcome
  | panicked
  | returned (err : Option String)
deriving DecidableEq, Repr

/-- Result of one Engine.Apply call in the embedding: the outcome, the
catalog state after the call, and how many reconciliation requests were
published on the rendezvous channel `StateCh` during the call. -/
structure ApplyResult where
  outcome : ApplyOutcome
  state : FusisState
  published : Nat
deriving DecidableEq, Repr

/-- Engine.Apply. The log entry's data is given as the result of the JSON
decode (`none` models data that is not a valid encoding of a Command, on
which the Go code panics before touching the state). For a decoded
command the switch mutates the catalog by op, then exactly one request is
published on `StateCh` and the call blocks for the reply, which is
returned; `reply` is the value the state-change watcher sends back. A nil
Service/Destination pointer where the op dereferences it panics with the
state unmutated. -/
def engineApply (decoded : Option Command) (st : FusisState) (reply : Option String) : ApplyResult :=
  match decoded with
  | none => ⟨ApplyOutcome.panicked, st, 0⟩
  | some c =>
    match c.op, c.service, c.destination with
    | CommandOp.addServiceOp, some s, _ => ⟨ApplyOutcome.returned reply, st.AddService s, 1⟩
    | CommandOp.delServiceOp, some s, _ => ⟨ApplyOutcome.returned reply, st.DeleteService s, 1⟩
    | CommandOp.addDestinationOp, _, some d => ⟨ApplyOutcome.returned reply, st.AddDestination d, 1⟩
    | CommandOp.delDestinationOp, _, some d => ⟨ApplyOutcome.returned reply, st.DeleteDestination d, 1⟩
    | CommandOp.addServiceOp, none, _ => ⟨ApplyOutcome.panicked, st, 0⟩
    | CommandOp.delServiceOp, none, _ => ⟨ApplyOutcome.panicked, st, 0⟩
    | CommandOp.addDestinationOp, _, none => ⟨ApplyOutcome.panicked, st, 0⟩
    | CommandOp.delDestinationOp, _, none => ⟨ApplyOutcome.panicked, st, 0⟩

/-- The payload the op dereferences is present (non-nil), as the spec's
wire format promises. -/
def payloadPresent (c : Command) : Prop :=
  (c.op = CommandOp.addServiceOp ∨ c.op = CommandOp.delServiceOp → c.service.isSome = true) ∧
  (c.op = CommandOp.addDestinationOp ∨ c.op = CommandOp.delDestinationOp → c.destination.isSome = true)

/-- Engine.Snapshot: the slice produced by GetServices (each service with
its destinations inlined). -/
def engineSnapshot (st : FusisState) : List Service :=
  st.GetServices

/-- Engine.Restore on a decoded slice: for each service call AddService,
then AddDestination for each nested destination. It does not clear the
catalog first. -/
def engineRestore (services : List Service) (st : FusisState) : FusisState :=
  services.foldl (fun acc s => s.destinations.foldl (fun a d => a.AddDestination d) (acc.AddService s)) st

/-- Result of one Balancer.handleStateChange call: whether
Provider.SyncVIPs was invoked (leader only), and the returned error. In
the Go code the return value of SyncVIPs is discarded; only the result of
`Ipvs.SyncState` is returned. The two sync results are inputs because the
syscall layers (`provider`, `ipvs.Ipvs`) are external to the state model;
`none` is a nil error. -/
structure StateChangeResult where
  calledSyncVIPs : Bool
  ret : Option String
deriving DecidableEq, Repr

/-- Balancer.handleStateChange: on the leader call Provider.SyncVIPs
(discarding its error), otherwise take the mutex; in all cases return the
error of Ipvs.SyncState. -/
def handleStateChange (isLeader : Bool) (syncVIPsErr ipvsSyncErr : Option String) : StateChangeResult :=
  if isLeader then ⟨true, ipvsSyncErr⟩
  else ⟨false, ipvsSyncErr⟩

/-- Balancer.watchState sends the result of handleStateChange back on the
reply channel received from the engine. -/
def watchStateReply (isLeader : Bool) (syncVIPsErr ipvsSyncErr : Option String) : Option String :=
  (handleStateChange isLeader syncVIPsErr ipvsSyncErr).ret

/-- Insertion of the hosts of the services into the `toAddMap` set, in
slice order: a Go `map[string]struct\x7b\x7d` used as a set, modelled as a
duplicate-free list. -/
def buildToAddMap : List String → List String → List String
  | [], acc => acc
  | h :: rest, acc => buildToAddMap rest (if h ∈ acc then acc else acc ++ [h])

/-- The loop over the previously bound VIPs: an address present in the
set is discharged (deleted from the set), any other bound address goes to
the removal slice. -/
def splitVips : List String → List String → List String → List String × List String
  | [], toAdd, toRemove => (toAdd, toRemove)
  | ip :: rest, toAdd, toRemove =>
    if ip ∈ toAdd then splitVips rest (toAdd.erase ip) toRemove
    else splitVips rest toAdd (toRemove ++ [ip])

/-- Result of one None.SyncVIPs call: the addresses passed to AddIp and
DelIp (without the textual "/32" suffix; `addCalls`/`delCalls` carry the
exact argument strings), and the returned error. -/
structure VipSyncResult where
  adds : List String
  removes : List String
  addCalls : List String
  delCalls : List String
  ret : Option String
deriving DecidableEq, Repr

/-- None.SyncVIPs. `oldVIPs` is the result of `net.GetFusisVipsIps` (the
addresses currently bound on the interface, an error aborts the pass);
`addIp` and `delIp` are oracles giving the error, if any, of each
`net.AddIp`/`net.DelIp` syscall on its argument. Every add and delete is
attempted; individual failures are formatted and accumulated, and a
single compound error is returned when any occurred. -/
def syncVIPs (oldVIPs : Except String (List String)) (st : FusisState)
    (addIp delIp : String → Option String) : VipSyncResult :=
  match oldVIPs with
  | Except.error e => ⟨[], [], [], [], some e⟩
  | Except.ok vips =>
    let toAddMap := buildToAddMap (st.GetServices.map (fun s => s.host)) []
    let pair := splitVips vips toAddMap []
    let addErrors := pair.1.filterMap
      (fun ip => (addIp (ip ++ "/32")).map (fun e => "error adding ip " ++ ip ++ ": " ++ e))
    let delErrors := pair.2.filterMap
      (fun ip => (delIp (ip ++ "/32")).map (fun e => "error deleting ip " ++ ip ++ ": " ++ e))
    let errors := addErrors ++ delErrors
    ⟨pair.1, pair.2,
      pair.1.map (fun ip => ip ++ "/32"),
      pair.2.map (fun ip => ip ++ "/32"),
      if errors.isEmpty then none
      else some ("multiple errors: " ++ String.intercalate " | " errors)⟩

/-- Actions of the Balancer observable in the coordinator traces. -/
inductive BalancerAction
  | lockMutex
  | flushVipsCall
  | syncVipsCall
  | unlockMutex
  | checkPeers
  | serfLeave
  | pollPeers
  | warnTimeout
  | serfShutdown
  | raftShutdown
  | storeClose
  | clearPeers
  | removeSelfPeer
deriving DecidableEq, Repr

/-- Balancer.watchLeaderChanges, one received leadership transition: take
the mutex; when leadership was won flush the VIPs then rebind them via
Provider.SyncVIPs (setVips), when leadership was lost only flush; release
the mutex. -/
def leaderChangeStep (isLeader : Bool) : List BalancerAction :=
  if isLeader then
    [BalancerAction.lockMutex, BalancerAction.flushVipsCall, BalancerAction.syncVipsCall, BalancerAction.unlockMutex]
  else
    [BalancerAction.lockMutex, BalancerAction.flushVipsCall, BalancerAction.unlockMutex]

/-- Balancer.watchLeaderChanges over a whole stream of transitions: the
steps run one after the other, each under the mutex. -/
def leaderChangeTrace (events : List Bool) : List BalancerAction :=
  events.flatMap leaderChangeStep

/-- The grace-period polling loop of Balancer.Leave. `numPeers` is the
last read peer count (excluding the local node), `polls` is the oracle
giving the result of the i-th `numOtherPeers` call inside the loop, and
`fuel` bounds the number of iterations (the Go loop is bounded by
`raftRemoveGracePeriod` = 5s of 50ms sleeps). Returns the poll trace and
the final peer count. -/
def leaveWaitLoop (numPeers : Nat) (polls : Nat → Except String Nat) (i fuel : Nat) :
    List BalancerAction × Nat :=
  match fuel with
  | 0 => ([], numPeers)
  | fuel' + 1 =>
    if numPeers > 0 then
      match polls i with
      | Except.error _ => ([BalancerAction.pollPeers], numPeers)
      | Except.ok n =>
        if n = 0 then ([BalancerAction.pollPeers], n)
        else
          let rest := leaveWaitLoop n polls (i + 1) fuel'
          (BalancerAction.pollPeers :: rest.1, rest.2)
    else ([], numPeers)

/-- Balancer.Leave: read the peer count (aborting on error), leave the
gossip cluster, and — only when the node is not the raft leader — run the
grace-period wait loop, warning on timeout. The commented-out
RemovePeer(self) call of the source is absent: no removeSelfPeer action
is ever emitted. -/
def balancerLeave (isLeader : Bool) (initialPeers : Except String Nat)
    (polls : Nat → Except String Nat) (fuel : Nat) : List BalancerAction :=
  match initialPeers with
  | Except.error _ => [BalancerAction.checkPeers]
  | Except.ok numPeers =>
    [BalancerAction.checkPeers, BalancerAction.serfLeave] ++
      (if isLeader then []
       else
        let w := leaveWaitLoop numPeers polls 0 fuel
        w.1 ++ (if w.2 ≠ 0 then [BalancerAction.warnTimeout] else []))

/-- Balancer.Shutdown: Leave, then serf.Shutdown, raft.Shutdown, close the
bolt log/stable store (when one exists, i.e. outside DevMode) and clear
the peer list. -/
def balancerShutdown (isLeader : Bool) (initialPeers : Except String Nat)
    (polls : Nat → Except String Nat) (fuel : Nat) (hasStore : Bool) : List BalancerAction :=
  balancerLeave isLeader initialPeers polls fuel ++
    [BalancerAction.serfShutdown, BalancerAction.raftShutdown] ++
    (if hasStore then [BalancerAction.storeClose] else []) ++
    [BalancerAction.clearPeers]

/-- A fixed sample service used by concrete witnesses. -/
def witService : Service := ⟨"web", "10.0.0.1", 80, "tcp", "rr", []⟩

/-- A fixed sample destination referencing `witService`, used by concrete
witnesses. -/
def witDest : Destination := ⟨"web-1", "192.168.1.10", 8080, 1, "nat", "web"⟩

theorem find?_key_mapErase_ne {α : Type} (m : List (String × α)) (k n : String) (hne : n ≠ k) :
    (mapErase k m).find? (fun p => p.1 == n) = m.find? (fun p => p.1 == n) := by
  unfold mapErase
  induction m with
  | nil => rfl
  | cons p rest ih =>
    by_cases hpk : p.1 = k
    · by_cases hpn : p.1 = n
      · exact absurd (hpn.symm.trans hpk) hne
      · rw [List.filter_cons, if_neg (by simp [hpk])]
        rw [ih, List.find?_cons_of_neg _ (by simp [hpn])]
    · by_cases hpn : p.1 = n
      · rw [List.filter_cons, if_pos (by simp [hpk])]
        rw [List.find?_cons_of_pos _ (by simp [hpn]), List.find?_cons_of_pos _ (by simp [hpn])]
      · rw [List.filter_cons, if_pos (by simp [hpk])]
        rw [List.find?_cons_of_neg _ (by simp [hpn]), List.find?_cons_of_neg _ (by simp [hpn]), ih]

theorem lookupKey_mapErase {α : Type} (m : List (String × α)) (k n : String) :
    lookupKey (mapErase k m) n = if n = k then none else lookupKey m n := by
  by_cases hnk : n = k
  · subst hnk
    rw [if_pos rfl]
    unfold lookupKey mapErase
    rw [Option.map_eq_none']
    rw [List.find?_eq_none]
    intro p hp
    have hmem := List.of_mem_filter hp
    simpa using hmem
  · rw [if_neg hnk]
    unfold lookupKey
    rw [find?_key_mapErase_ne m k n hnk]

theorem lookup_map_replace_self {α : Type} (m : List (String × α)) (k : String) (v : α)
    (h : (lookupKey m k).isSome = true) :
    lookupKey (m.map (fun p => if p.1 == k then (k, v) else p)) k = some v := by
  induction m with
  | nil => simp [lookupKey] at h
  | cons p rest ih =>
    by_cases hpk : p.1 = k
    · unfold lookupKey
      rw [List.map_cons, if_pos (by simp [hpk] : (p.1 == k) = true)]
      rw [List.find?_cons_of_pos _ (by simp)]
      rfl
    · unfold lookupKey
      rw [List.map_cons, if_neg (by simp [hpk] : ¬((p.1 == k) = true))]
      rw [List.find?_cons_of_neg _ (by simp [hpk])]
      have h2 : (lookupKey rest k).isSome = true := by
        unfold lookupKey at h
        rwa [List.find?_cons_of_neg _ (by simp [hpk])] at h
      unfold lookupKey at ih
      exact ih h2

theorem lookup_map_replace_ne {α : Type} (m : List (String × α)) (k n : String) (v : α)
    (hne : n ≠ k) :
    lookupKey (m.map (fun p => if p.1 == k then (k, v) else p)) n = lookupKey m n := by
  induction m with
  | nil => rfl
  | cons p rest ih =>
    unfold lookupKey at ih ⊢
    by_cases hpk : p.1 = k
    · rw [List.map_cons, if_pos (by simp [hpk] : (p.1 == k) = true)]
      rw [List.find?_cons_of_neg _ (by simp; exact fun hh => hne hh.symm)]
      rw [List.find?_cons_of_neg _ (by simp [hpk]; exact fun hh => hne hh.symm)]
      exact ih
    · rw [List.map_cons, if_neg (by simp [hpk] : ¬((p.1 == k) = true))]
      by_cases hpn : p.1 = n
      · rw [List.find?_cons_of_pos _ (by simp [hpn]), List.find?_cons_of_pos _ (by simp [hpn])]
      · rw [List.find?_cons_of_neg _ (by simp [hpn]), List.find?_cons_of_neg _ (by simp [hpn])]
        exact ih

theorem lookupKey_mapInsert_self {α : Type} (m : List (String × α)) (k : String) (v : α) :
    lookupKey (mapInsert k v m) k = some v := by
  unfold mapInsert
  by_cases h : (lookupKey m k).isSome = true
  · rw [if_pos h]
    exact lookup_map_replace_self m k v h
  · rw [if_neg h]
    have hnone : lookupKey m k = none := by
      cases hc : lookupKey m k
      · rfl
      · rw [hc] at h
        simp at h
    unfold lookupKey
    rw [List.find?_append]
    have h2 : m.find? (fun p => p.1 == k) = none := by
      unfold lookupKey at hnone
      exact Option.map_eq_none'.mp hnone
    rw [h2]
    simp

theorem lookupKey_mapInsert_ne {α : Type} (m : List (String × α)) (k n : String) (v : α)
    (hne : n ≠ k) : lookupKey (mapInsert k v m) n = lookupKey m n := by
  unfold mapInsert
  by_cases h : (lookupKey m k).isSome = true
  · rw [if_pos h]
    exact lookup_map_replace_ne m k n v hne
  · rw [if_neg h]
    unfold lookupKey
    rw [List.find?_append]
    have h2 : ([(k, v)].find? (fun p => p.1 == n)) = none := by
      rw [List.find?_eq_none]
      intro p hp
      rw [List.mem_singleton] at hp
      subst hp
      simp
      exact fun hh => hne hh.symm
    rw [h2]
    cases m.find? (fun p => p.1 == n) <;> rfl

theorem mapInsert_of_lookup_none {α : Type} (m : List (String × α)) (k : String) (v : α)
    (h : lookupKey m k = none) : mapInsert k v m = m ++ [(k, v)] := by
  unfold mapInsert
  rw [h]
  rfl

theorem mapInsert_self_of_lookup {α : Type} (m : List (String × α)) (k : String) (v : α)
    (hnd : (m.map (fun p => p.1)).Nodup) (hlk : lookupKey m k = some v) :
    mapInsert k v m = m := by
  have hs : (lookupKey m k).isSome = true := by rw [hlk]; rfl
  unfold mapInsert
  rw [if_pos hs]
  clear hs
  induction m with
  | nil => rfl
  | cons p rest ih =>
    rw [List.map_cons]
    by_cases hpk : p.1 = k
    · have hv : p.2 = v := by
        unfold lookupKey at hlk
        rw [List.find?_cons_of_pos _ (by simp [hpk])] at hlk
        simpa using hlk
      have h1 : p.1 ∉ rest.map (fun q => q.1) := by
        rw [List.map_cons] at hnd
        exact (List.nodup_cons.1 hnd).1
      have hrest : rest.map (fun q => if q.1 == k then (k, v) else q) = rest := by
        have h2 : ∀ q ∈ rest, (if q.1 == k then (k, v) else q) = q := by
          intro q hq
          rw [if_neg]
          simp only [beq_iff_eq]
          intro he
          exact h1 (hpk ▸ he ▸ List.mem_map_of_mem (fun q => q.1) hq)
        calc rest.map (fun q => if q.1 == k then (k, v) else q) = rest.map id :=
              List.map_congr_left h2
          _ = rest := List.map_id rest
      rw [if_pos (by simp [hpk] : (p.1 == k) = true), hrest]
      have hp : (k, v) = p := by
        obtain ⟨p1, p2⟩ := p
        simp only at hpk hv
        rw [hpk, hv]
      rw [hp]
    · have hlk2 : lookupKey rest k = some v := by
        unfold lookupKey at hlk ⊢
        rwa [List.find?_cons_of_neg _ (by simp [hpk])] at hlk
      have hnd2 : (rest.map (fun q => q.1)).Nodup := by
        rw [List.map_cons] at hnd
        exact (List.nodup_cons.1 hnd).2
      rw [if_neg (by simp [hpk] : ¬((p.1 == k) = true))]
      rw [ih hnd2 hlk2]

theorem lookupKey_eq_none_iff {α : Type} (m : List (String × α)) (k : String) :
    lookupKey m k = none ↔ ∀ p ∈ m, p.1 ≠ k := by
  unfold lookupKey
  rw [Option.map_eq_none']
  rw [List.find?_eq_none]
  constructor
  · intro h p hp
    have := h p hp
    simpa using this
  · intro h p hp
    simpa using h p hp

theorem mapErase_of_lookup_none {α : Type} (m : List (String × α)) (k : String)
    (h : lookupKey m k = none) : mapErase k m = m := by
  unfold mapErase
  rw [List.filter_eq_self]
  intro p hp
  have := (lookupKey_eq_none_iff m k).1 h p hp
  simp [this]

/-- C10: For every raft log entry whose data is not a valid encoding of a
Command, Engine.Apply panics rather than returning a value, publishes no
reconciliation request, and leaves the Catalog unchanged. -/
theorem engine_apply_invalid_panics (st : FusisState) (reply : Option String) :
    (engineApply none st reply).outcome = ApplyOutcome.panicked ∧
    (engineApply none st reply).state = st ∧
    (engineApply none st reply).published = 0 ∧
    ∀ e, (engineApply none st reply).outcome ≠ ApplyOutcome.returned e := by
  refine ⟨rfl, rfl, rfl, ?_⟩
  intro e h
  simp [engineApply] at h

/-- Witness for the panic theorem at a concrete state. -/
theorem engine_apply_invalid_panics_witness :
    (engineApply none emptyState none).outcome = ApplyOutcome.panicked ∧
    (engineApply none emptyState none).state = emptyState :=
  ⟨(engine_apply_invalid_panics emptyState none).1,
   (engine_apply_invalid_panics emptyState none).2.1⟩

/-- C1: For every decoded Command whose payload is present, Engine.Apply
mutates the Catalog according to the op (AddServiceOp adds the Service,
DelServiceOp deletes it, AddDestinationOp adds the Destination,
DelDestinationOp deletes it), publishes exactly one reconciliation
request on the rendezvous channel, and returns the reply received from
the state-change watcher (the error of handleStateChange) as the Apply
result. -/
theorem engine_apply_decoded_spec (c : Command) (st : FusisState) (reply : Option String)
    (h : payloadPresent c) :
    (engineApply (some c) st reply).outcome = ApplyOutcome.returned reply ∧
    (engineApply (some c) st reply).published = 1 ∧
    (∀ s, c.op = CommandOp.addServiceOp → c.service = some s →
      (engineApply (some c) st reply).state = st.AddService s) ∧
    (∀ s, c.op = CommandOp.delServiceOp → c.service = some s →
      (engineApply (some c) st reply).state = st.DeleteService s) ∧
    (∀ d, c.op = CommandOp.addDestinationOp → c.destination = some d →
      (engineApply (some c) st reply).state = st.AddDestination d) ∧
    (∀ d, c.op = CommandOp.delDestinationOp → c.destination = some d →
      (engineApply (some c) st reply).state = st.DeleteDestination d) := by
  obtain ⟨op, svc, dst⟩ := c
  cases op <;> cases svc <;> cases dst
  all_goals try exact Bool.noConfusion (And.left h (Or.inl rfl))
  all_goals try exact Bool.noConfusion (And.left h (Or.inr rfl))
  all_goals try exact Bool.noConfusion (And.right h (Or.inl rfl))
  all_goals try exact Bool.noConfusion (And.right h (Or.inr rfl))
  all_goals refine ⟨rfl, rfl, ?_, ?_, ?_, ?_⟩
  all_goals intro x h1 h2
  all_goals try cases h1
  all_goals injection h2 with h2
  all_goals subst h2
  all_goals rfl

/-- Witness: applying an AddService command to the empty state stores the
service and returns the reconciler's reply. -/
theorem engine_apply_decoded_spec_witness :
    (engineApply (some ⟨CommandOp.addServiceOp, some witService, none⟩) emptyState
        (some "sync failed")).state = emptyState.AddService witService ∧
    (engineApply (some ⟨CommandOp.addServiceOp, some witService, none⟩) emptyState
        (some "sync failed")).outcome = ApplyOutcome.returned (some "sync failed") ∧
    (engineApply (some ⟨CommandOp.addServiceOp, some witService, none⟩) emptyState
        (some "sync failed")).published = 1 := by
  have h := engine_apply_decoded_spec ⟨CommandOp.addServiceOp, some witService, none⟩
    emptyState (some "sync failed") ⟨fun _ => rfl, fun hh => by rcases hh with h1 | h1 <;> cases h1⟩
  exact ⟨h.2.2.1 witService rfl rfl, h.1, h.2.1⟩

/-- C2 counterexample: with the node as leader, a failing SyncVIPs
(address-binding error) and a succeeding IPVS sync, handleStateChange
returns nil, so the Engine.Apply that triggered the pass returns nil:
the client does not observe the dataplane failure, contradicting the
claim that a SyncVIPs error makes the triggering Apply fail. -/
theorem syncvips_error_dropped_cex :
    (handleStateChange true (some "error adding ip 10.0.0.1: file exists") none).calledSyncVIPs = true ∧
    (handleStateChange true (some "error adding ip 10.0.0.1: file exists") none).ret = none ∧
    (engineApply (some ⟨CommandOp.addServiceOp, some witService, none⟩) emptyState
        (watchStateReply true (some "error adding ip 10.0.0.1: file exists") none)).outcome
      = ApplyOutcome.returned none :=
  ⟨rfl, rfl, rfl⟩

/-- C2 (amended): the result of handleStateChange — and hence the reply
returned by the Apply that triggered the reconciliation pass — is exactly
the error of the IPVS table sync; the error of Provider.SyncVIPs on the
leader is invoked but its error is discarded, never reaching the client. -/
theorem handle_state_change_returns_ipvs_error_only (isLeader : Bool)
    (syncVIPsErr ipvsSyncErr : Option String) :
    (handleStateChange isLeader syncVIPsErr ipvsSyncErr).ret = ipvsSyncErr ∧
    (handleStateChange isLeader syncVIPsErr ipvsSyncErr).calledSyncVIPs = isLeader ∧
    (∀ st svc, (engineApply (some ⟨CommandOp.addServiceOp, some svc, none⟩) st
        (watchStateReply isLeader syncVIPsErr ipvsSyncErr)).outcome
      = ApplyOutcome.returned ipvsSyncErr) := by
  cases isLeader <;> exact ⟨rfl, rfl, fun st svc => rfl⟩

/-- The dataplane effects of one leadership transition as the spec claims
them: flush the VIP bindings, then on becoming leader rebind via
Provider.SyncVIPs; on losing leadership do not rebind. -/
def claimedLeaderEffects (isLeader : Bool) : List BalancerAction :=
  BalancerAction.flushVipsCall :: (if isLeader then [BalancerAction.syncVipsCall] else [])

/-- C7: every leadership transition handled by watchLeaderChanges performs
exactly the claimed dataplane effects — flush then rebind on winning
leadership, flush only on losing it — and performs them while holding the
Coordinator's mutex; over a whole stream of transitions the trace is a
concatenation of such mutex-bracketed critical sections, so no two
transitions interleave their bind/unbind steps. -/
theorem watch_leader_changes_spec (events : List Bool) :
    (∀ b, leaderChangeStep b
      = [BalancerAction.lockMutex] ++ claimedLeaderEffects b ++ [BalancerAction.unlockMutex]) ∧
    leaderChangeTrace events
      = events.flatMap (fun b =>
          [BalancerAction.lockMutex] ++ claimedLeaderEffects b ++ [BalancerAction.unlockMutex]) := by
  constructor
  · intro b
    cases b <;> rfl
  · induction events with
    | nil => rfl
    | cons b rest ih =>
      unfold leaderChangeTrace at ih ⊢
      rw [List.flatMap_cons, List.flatMap_cons, ih]
      congr 1
      cases b <;> rfl

theorem buildToAddMap_mem (l : List String) (acc : List String) (x : String) :
    x ∈ buildToAddMap l acc ↔ x ∈ l ∨ x ∈ acc := by
  induction l generalizing acc with
  | nil => simp [buildToAddMap]
  | cons a rest ih =>
    unfold buildToAddMap
    by_cases ha : a ∈ acc
    · rw [if_pos ha, ih]
      constructor
      · rintro (hx | hx)
        · exact Or.inl (List.mem_cons_of_mem a hx)
        · exact Or.inr hx
      · rintro (hx | hx)
        · rcases List.mem_cons.1 hx with hx | hx
          · exact Or.inr (hx ▸ ha)
          · exact Or.inl hx
        · exact Or.inr hx
    · rw [if_neg ha, ih]
      simp [List.mem_append, List.mem_cons]
      tauto

theorem buildToAddMap_nodup (l : List String) (acc : List String) (h : acc.Nodup) :
    (buildToAddMap l acc).Nodup := by
  induction l generalizing acc with
  | nil => exact h
  | cons a rest ih =>
    unfold buildToAddMap
    by_cases ha : a ∈ acc
    · rw [if_pos ha]
      exact ih acc h
    · rw [if_neg ha]
      refine ih _ (List.nodup_append.mpr ⟨h, List.nodup_singleton a, ?_⟩)
      intro x hx hxa
      rw [List.mem_singleton] at hxa
      exact ha (hxa ▸ hx)

theorem splitVips_fst_mem (vips : List String) (toAdd toRemove : List String)
    (h : toAdd.Nodup) (x : String) :
    (x ∈ (splitVips vips toAdd toRemove).1 ↔ x ∈ toAdd ∧ x ∉ vips) := by
  induction vips generalizing toAdd toRemove with
  | nil => simp [splitVips]
  | cons ip rest ih =>
    unfold splitVips
    by_cases hip : ip ∈ toAdd
    · rw [if_pos hip, ih _ _ (h.erase ip)]
      rw [List.Nodup.mem_erase_iff h]
      simp [List.mem_cons]
      tauto
    · rw [if_neg hip, ih _ _ h]
      constructor
      · rintro ⟨hx1, hx2⟩
        refine ⟨hx1, fun hh => ?_⟩
        rcases List.mem_cons.1 hh with he | hh
        · exact hip (he ▸ hx1)
        · exact hx2 hh
      · rintro ⟨hx1, hx2⟩
        exact ⟨hx1, fun hh => hx2 (List.mem_cons_of_mem ip hh)⟩

theorem splitVips_fst_nodup (vips : List String) (toAdd toRemove : List String)
    (h : toAdd.Nodup) : (splitVips vips toAdd toRemove).1.Nodup := by
  induction vips generalizing toAdd toRemove with
  | nil => exact h
  | cons ip rest ih =>
    unfold splitVips
    by_cases hip : ip ∈ toAdd
    · rw [if_pos hip]
      exact ih _ _ (h.erase ip)
    · rw [if_neg hip]
      exact ih _ _ h

theorem splitVips_snd_mem (vips : List String) (toAdd toRemove : List String)
    (hv : vips.Nodup) (ht : toAdd.Nodup) (x : String) :
    (x ∈ (splitVips vips toAdd toRemove).2 ↔
      x ∈ toRemove ∨ (x ∈ vips ∧ x ∉ toAdd)) := by
  induction vips generalizing toAdd toRemove with
  | nil => simp [splitVips]
  | cons ip rest ih =>
    have hv1 : ip ∉ rest := (List.nodup_cons.1 hv).1
    have hv2 : rest.Nodup := (List.nodup_cons.1 hv).2
    unfold splitVips
    by_cases hip : ip ∈ toAdd
    · rw [if_pos hip, ih _ _ hv2 (ht.erase ip)]
      constructor
      · rintro (hx | ⟨hx1, hx2⟩)
        · exact Or.inl hx
        · refine Or.inr ⟨List.mem_cons_of_mem ip hx1, fun hh => ?_⟩
          have hne : x ≠ ip := fun he => hv1 (he ▸ hx1)
          exact hx2 ((List.Nodup.mem_erase_iff ht).mpr ⟨hne, hh⟩)
      · rintro (hx | ⟨hx1, hx2⟩)
        · exact Or.inl hx
        · rcases List.mem_cons.1 hx1 with he | hx1
          · exact absurd (he ▸ hip) hx2
          · refine Or.inr ⟨hx1, fun hh => hx2 ?_⟩
            exact ((List.Nodup.mem_erase_iff ht).mp hh).2
    · rw [if_neg hip, ih _ _ hv2 ht]
      simp [List.mem_append, List.mem_singleton, List.mem_cons]
      constructor
      · rintro ((hx | hx) | ⟨hx1, hx2⟩)
        · exact Or.inl hx
        · exact Or.inr ⟨Or.inl hx, hx ▸ hip⟩
        · exact Or.inr ⟨Or.inr hx1, hx2⟩
      · rintro (hx | ⟨hx1 | hx1, hx2⟩)
        · exact Or.inl (Or.inl hx)
        · exact Or.inl (Or.inr hx1)
        · exact Or.inr ⟨hx1, hx2⟩

theorem splitVips_snd_nodup (vips : List String) (toAdd toRemove : List String)
    (hv : vips.Nodup) (hr : toRemove.Nodup) (hd : ∀ x ∈ vips, x ∉ toRemove) :
    (splitVips vips toAdd toRemove).2.Nodup := by
  induction vips generalizing toAdd toRemove with
  | nil => exact hr
  | cons ip rest ih =>
    have hv1 : ip ∉ rest := (List.nodup_cons.1 hv).1
    have hv2 : rest.Nodup := (List.nodup_cons.1 hv).2
    unfold splitVips
    by_cases hip : ip ∈ toAdd
    · rw [if_pos hip]
      exact ih _ _ hv2 hr (fun x hx => hd x (List.mem_cons_of_mem ip hx))
    · rw [if_neg hip]
      refine ih _ _ hv2 ?_ ?_
      · refine List.nodup_append.mpr ⟨hr, List.nodup_singleton ip, ?_⟩
        intro x hx hxi
        rw [List.mem_singleton] at hxi
        exact hd ip (List.mem_cons_self ip rest) (hxi ▸ hx)
      · intro x hx hmem
        rcases List.mem_append.1 hmem with hm | hm
        · exact hd x (List.mem_cons_of_mem ip hx) hm
        · rw [List.mem_singleton] at hm
          exact hv1 (hm ▸ hx)

/-- C4: for any catalog state and any duplicate-free set of addresses
currently bound on the interface, SyncVIPs attempts an AddIp (with /32
mask) for exactly the service hosts that are not bound, and a DelIp (with
/32 mask) for exactly the bound addresses that are no service's host;
every one of those operations is attempted regardless of individual
failures (the attempted sets do not depend on the syscall oracles), and
the returned error is nil exactly when no individual add or delete
failed. -/
theorem syncvips_symmetric_difference (vips : List String) (st : FusisState)
    (addIp delIp : String → Option String) (hv : vips.Nodup) :
    (∀ ip, ip ∈ (syncVIPs (Except.ok vips) st addIp delIp).adds ↔
      ip ∈ st.GetServices.map (fun s => s.host) ∧ ip ∉ vips) ∧
    (∀ ip, ip ∈ (syncVIPs (Except.ok vips) st addIp delIp).removes ↔
      ip ∈ vips ∧ ip ∉ st.GetServices.map (fun s => s.host)) ∧
    (syncVIPs (Except.ok vips) st addIp delIp).adds.Nodup ∧
    (syncVIPs (Except.ok vips) st addIp delIp).removes.Nodup ∧
    (syncVIPs (Except.ok vips) st addIp delIp).addCalls
      = (syncVIPs (Except.ok vips) st addIp delIp).adds.map (fun ip => ip ++ "/32") ∧
    (syncVIPs (Except.ok vips) st addIp delIp).delCalls
      = (syncVIPs (Except.ok vips) st addIp delIp).removes.map (fun ip => ip ++ "/32") ∧
    ((syncVIPs (Except.ok vips) st addIp delIp).ret = none ↔
      (∀ ip ∈ (syncVIPs (Except.ok vips) st addIp delIp).adds, addIp (ip ++ "/32") = none) ∧
      (∀ ip ∈ (syncVIPs (Except.ok vips) st addIp delIp).removes, delIp (ip ++ "/32") = none)) ∧
    (∀ addIp2 delIp2,
      (syncVIPs (Except.ok vips) st addIp2 delIp2).adds
        = (syncVIPs (Except.ok vips) st addIp delIp).adds ∧
      (syncVIPs (Except.ok vips) st addIp2 delIp2).removes
        = (syncVIPs (Except.ok vips) st addIp delIp).removes) := by
  have hmapnd : (buildToAddMap (st.GetServices.map (fun s => s.host)) []).Nodup :=
    buildToAddMap_nodup _ _ List.nodup_nil
  have hmapmem : ∀ x, x ∈ buildToAddMap (st.GetServices.map (fun s => s.host)) [] ↔
      x ∈ st.GetServices.map (fun s => s.host) := by
    intro x
    rw [buildToAddMap_mem]
    simp
  refine ⟨?_, ?_, ?_, ?_, rfl, rfl, ?_, fun a2 d2 => ⟨rfl, rfl⟩⟩
  · intro ip
    show ip ∈ (splitVips vips (buildToAddMap (st.GetServices.map (fun s => s.host)) []) []).1 ↔ _
    rw [splitVips_fst_mem _ _ _ hmapnd, hmapmem]
  · intro ip
    show ip ∈ (splitVips vips (buildToAddMap (st.GetServices.map (fun s => s.host)) []) []).2 ↔ _
    rw [splitVips_snd_mem _ _ _ hv hmapnd]
    simp [hmapmem]
  · exact splitVips_fst_nodup _ _ _ hmapnd
  · exact splitVips_snd_nodup _ _ _ hv List.nodup_nil (fun x _ h => (List.not_mem_nil x) h)
  · show (if _ then none else some _) = none ↔ _
    constructor
    · intro hret
      by_cases hemp : (((splitVips vips (buildToAddMap (st.GetServices.map (fun s => s.host)) []) []).1.filterMap
            (fun ip => (addIp (ip ++ "/32")).map (fun e => "error adding ip " ++ ip ++ ": " ++ e))) ++
          ((splitVips vips (buildToAddMap (st.GetServices.map (fun s => s.host)) []) []).2.filterMap
            (fun ip => (delIp (ip ++ "/32")).map (fun e => "error deleting ip " ++ ip ++ ": " ++ e)))).isEmpty
      · rw [List.isEmpty_iff, List.append_eq_nil] at hemp
        obtain ⟨he1, he2⟩ := hemp
        rw [List.filterMap_eq_nil_iff] at he1 he2
        constructor
        · intro ip hip
          have := he1 ip hip
          rwa [Option.map_eq_none'] at this
        · intro ip hip
          have := he2 ip hip
          rwa [Option.map_eq_none'] at this
      · rw [if_neg hemp] at hret
        exact absurd hret (by simp)
    · intro ⟨h1, h2⟩
      have hemp1 : ((splitVips vips (buildToAddMap (st.GetServices.map (fun s => s.host)) []) []).1.filterMap
          (fun ip => (addIp (ip ++ "/32")).map (fun e => "error adding ip " ++ ip ++ ": " ++ e))) = [] := by
        rw [List.filterMap_eq_nil_iff]
        intro ip hip
        rw [Option.map_eq_none']
        exact h1 ip hip
      have hemp2 : ((splitVips vips (buildToAddMap (st.GetServices.map (fun s => s.host)) []) []).2.filterMap
          (fun ip => (delIp (ip ++ "/32")).map (fun e => "error deleting ip " ++ ip ++ ": " ++ e))) = [] := by
        rw [List.filterMap_eq_nil_iff]
        intro ip hip
        rw [Option.map_eq_none']
        exact h2 ip hip
      rw [if_pos]
      rw [hemp1, hemp2]
      rfl

/-- Witness for the SyncVIPs theorem: one service with host 10.0.0.1, one
stale bound address 10.0.0.2, a failing delete syscall. The pass adds
10.0.0.1/32, removes 10.0.0.2/32, and reports a non-nil error. -/
theorem syncvips_symmetric_difference_witness :
    (["10.0.0.2"] : List String).Nodup ∧
    ((syncVIPs (Except.ok ["10.0.0.2"]) (emptyState.AddService witService)
        (fun _ => none) (fun _ => none)).adds = ["10.0.0.1"] ∧
      (syncVIPs (Except.ok ["10.0.0.2"]) (emptyState.AddService witService)
        (fun _ => none) (fun _ => none)).removes = ["10.0.0.2"] ∧
      (syncVIPs (Except.ok ["10.0.0.2"]) (emptyState.AddService witService)
        (fun _ => none) (fun _ => none)).ret = none) ∧
    ("10.0.0.1" ∈ (syncVIPs (Except.ok ["10.0.0.2"]) (emptyState.AddService witService)
        (fun _ => none) (fun _ => none)).adds ↔
      "10.0.0.1" ∈ (emptyState.AddService witService).GetServices.map (fun s => s.host) ∧
        "10.0.0.1" ∉ (["10.0.0.2"] : List String)) := by
  have hnd : (["10.0.0.2"] : List String).Nodup := List.nodup_singleton _
  have h := syncvips_symmetric_difference ["10.0.0.2"] (emptyState.AddService witService)
    (fun _ => none) (fun _ => none) hnd
  exact ⟨hnd, ⟨rfl, rfl, rfl⟩, h.1 "10.0.0.1"⟩

/-- C6: catalog mutations are idempotent. Adding a Service or Destination
whose id already maps to that exact entry leaves the state unchanged;
deleting a Service or Destination whose id is absent leaves the state
unchanged; and an add always leaves the entry stored under its id
(overwrite semantics). -/
theorem catalog_idempotence (st : FusisState) (svc : Service) (dst : Destination)
    (hnd : NodupKeys st) :
    (lookupKey st.services svc.GetId = some svc → st.AddService svc = st) ∧
    (lookupKey st.destinations dst.GetId = some dst → st.AddDestination dst = st) ∧
    (lookupKey st.services svc.GetId = none → st.DeleteService svc = st) ∧
    (lookupKey st.destinations dst.GetId = none → st.DeleteDestination dst = st) ∧
    lookupKey (st.AddService svc).services svc.GetId = some svc ∧
    lookupKey (st.AddDestination dst).destinations dst.GetId = some dst := by
  refine ⟨?_, ?_, ?_, ?_, ?_, ?_⟩
  · intro h
    unfold FusisState.AddService
    rw [mapInsert_self_of_lookup _ _ _ hnd.1 h]
  · intro h
    unfold FusisState.AddDestination
    rw [mapInsert_self_of_lookup _ _ _ hnd.2 h]
  · intro h
    unfold FusisState.DeleteService
    rw [mapErase_of_lookup_none _ _ h]
  · intro h
    unfold FusisState.DeleteDestination
    rw [mapErase_of_lookup_none _ _ h]
  · exact lookupKey_mapInsert_self _ _ _
  · exact lookupKey_mapInsert_self _ _ _

/-- Witness for idempotence at a concrete one-service state. -/
theorem catalog_idempotence_witness :
    ((emptyState.AddService witService).AddService witService
      = emptyState.AddService witService) ∧
    emptyState.DeleteService witService = emptyState ∧
    lookupKey ((emptyState.AddService witService).AddService witService).services
      (Service.GetId witService) = some witService := by
  have h1 := catalog_idempotence (emptyState.AddService witService) witService witDest
    (by constructor <;> decide)
  have h2 := catalog_idempotence emptyState witService witDest
    ⟨List.nodup_nil, List.nodup_nil⟩
  refine ⟨h1.1 (by decide), h2.2.2.1 rfl, ?_⟩
  rw [h1.1 (by decide)]
  exact h1.2.2.2.2.1

/-- C8 counterexample: a Service whose Name field is the empty string can
be stored in the catalog (AddService performs no validation), and
GetService at its id then returns ErrServiceNotFound even though the
Service is present — refuting the claim that the typed not-found error is
returned exactly when no Service for that name is present. -/
theorem get_service_empty_name_cex :
    lookupKey (emptyState.AddService ⟨"", "10.0.0.9", 443, "tcp", "rr", []⟩).services
      (Service.GetId ⟨"", "10.0.0.9", 443, "tcp", "rr", []⟩)
      = some ⟨"", "10.0.0.9", 443, "tcp", "rr", []⟩ ∧
    (emptyState.AddService ⟨"", "10.0.0.9", 443, "tcp", "rr", []⟩).GetService
      (Service.GetId ⟨"", "10.0.0.9", 443, "tcp", "rr", []⟩)
      = Except.error StateErr.serviceNotFound := by
  constructor <;> rfl

/-- C8 (amended): GetService(name) returns ErrServiceNotFound exactly when
no Service is stored under that name or the stored Service has an empty
Name; when a Service with non-empty Name is stored it returns a copy of
the stored value whose scalar fields are unchanged and whose Destinations
field is repopulated by filtering the destinations map on service-id. The
call itself is read-only in the source (it writes only into the returned
copy), which the embedding reflects by leaving the state untouched. -/
theorem get_service_spec (st : FusisState) (n : String) :
    (st.GetService n = Except.error StateErr.serviceNotFound ↔
      lookupKey st.services n = none ∨
        ∃ v, lookupKey st.services n = some v ∧ v.name = "") ∧
    (∀ v, lookupKey st.services n = some v → v.name ≠ "" →
      st.GetService n = Except.ok (st.getDestinations v) ∧
      (st.getDestinations v).destinations
        = (st.destinations.map (fun p => p.2)).filter (fun d => d.serviceId == v.GetId) ∧
      (st.getDestinations v).name = v.name ∧
      (st.getDestinations v).host = v.host ∧
      (st.getDestinations v).port = v.port ∧
      (st.getDestinations v).protocol = v.protocol ∧
      (st.getDestinations v).scheduler = v.scheduler) := by
  constructor
  · unfold FusisState.GetService
    cases hc : lookupKey st.services n with
    | none =>
      constructor
      · intro _
        exact Or.inl rfl
      · intro _
        rfl
    | some v =>
      simp only [hc, Option.getD_some]
      by_cases hv : v.name = ""
      · rw [if_pos hv]
        constructor
        · intro _
          exact Or.inr ⟨v, rfl, hv⟩
        · intro _
          rfl
      · rw [if_neg hv]
        constructor
        · intro hh
          cases hh
        · rintro (hh | ⟨w, hw, hwn⟩)
          · cases hh
          · injection hw with hw
            exact absurd (hw ▸ hwn) hv
  · intro v hv hvn
    refine ⟨?_, rfl, rfl, rfl, rfl, rfl, rfl⟩
    unfold FusisState.GetService
    rw [hv]
    simp only [Option.getD_some]
    rw [if_neg hvn]

/-- Witness: at a one-service state, GetService on the stored name returns
the populated copy and on a fresh name returns the typed error. -/
theorem get_service_spec_witness :
    (emptyState.AddService witService).GetService "web"
      = Except.ok ((emptyState.AddService witService).getDestinations witService) ∧
    ((emptyState.AddService witService).GetService "api"
      = Except.error StateErr.serviceNotFound ↔
      lookupKey (emptyState.AddService witService).services "api" = none ∨
        ∃ v, lookupKey (emptyState.AddService witService).services "api" = some v ∧
          v.name = "") := by
  have h := get_service_spec (emptyState.AddService witService) "web"
  have h2 := get_service_spec (emptyState.AddService witService) "api"
  exact ⟨(h.2 witService (by decide) (by decide)).1, h2.1⟩

theorem lookupKey_some_mem {α : Type} (m : List (String × α)) (n : String) (v : α)
    (h : lookupKey m n = some v) : ∃ p ∈ m, p.1 = n ∧ p.2 = v := by
  unfold lookupKey at h
  cases hf : m.find? (fun p => p.1 == n) with
  | none =>
    rw [hf] at h
    cases h
  | some p =>
    rw [hf] at h
    refine ⟨p, List.mem_of_find?_eq_some hf, ?_, by injection h⟩
    have := List.find?_some hf
    simpa using this

/-- A catalog state holding one service and one destination of it,
reachable by an AddService command followed by an AddDestination command. -/
def orphanBase : FusisState := (emptyState.AddService witService).AddDestination witDest

/-- C3 counterexample: witDest references witService, yet after deleting
witService (directly or through a DelService command applied by the FSM)
the destination is still observable through GetDestination — DeleteService
does not cascade to the destinations map, refuting the claim that no
Destination referencing the deleted Service is observable via GetServices
or GetDestination. -/
theorem delete_service_orphan_destination_cex :
    Destination.serviceId witDest = Service.GetId witService ∧
    (orphanBase.DeleteService witService).GetDestination "web-1" = Except.ok witDest ∧
    (engineApply (some ⟨CommandOp.delServiceOp, some witService, none⟩) orphanBase
        none).state.GetDestination "web-1" = Except.ok witDest :=
  ⟨rfl, rfl, rfl⟩

/-- C3 (amended): after a DelService for s, no Destination whose
service-id references s is observable via GetServices or GetService (the
remaining populated services filter on ids different from s's); the
orphan Destination entries are not deleted, however, and remain
retrievable via GetDestination, as the counterexample shows. -/
theorem delete_service_hides_destinations (st : FusisState) (svc : Service)
    (hk : ∀ p ∈ st.services, p.1 = p.2.GetId) :
    (∀ v ∈ (st.DeleteService svc).GetServices, ∀ d ∈ v.destinations,
      d.serviceId ≠ svc.GetId) ∧
    (∀ n v, (st.DeleteService svc).GetService n = Except.ok v →
      ∀ d ∈ v.destinations, d.serviceId ≠ svc.GetId) := by
  have hkey : ∀ p ∈ mapErase svc.GetId st.services, p.2.GetId ≠ svc.GetId := by
    intro p hp
    have hmem := List.mem_filter.1 hp
    have h1 : p.1 ≠ svc.GetId := by simpa using hmem.2
    exact fun hh => h1 ((hk p hmem.1).trans hh)
  constructor
  · intro v hv d hd
    unfold FusisState.GetServices at hv
    rcases List.mem_map.1 hv with ⟨p, hp, hpe⟩
    subst hpe
    have hd2 := List.mem_filter.1 hd
    have hds : d.serviceId = p.2.GetId := by simpa using hd2.2
    exact fun hh => hkey p hp (hds.symm.trans hh)
  · intro n v hv d hd
    unfold FusisState.GetService at hv
    cases hc : lookupKey (st.DeleteService svc).services n with
    | none =>
      rw [hc] at hv
      simp [Service.zero] at hv
    | some w =>
      rw [hc] at hv
      simp only [Option.getD_some] at hv
      by_cases hw : w.name = ""
      · rw [if_pos hw] at hv
        cases hv
      · rw [if_neg hw] at hv
        injection hv with hv
        subst hv
        have hd2 := List.mem_filter.1 hd
        have hds : d.serviceId = w.GetId := by simpa using hd2.2
        obtain ⟨p, hpmem, hp1, hp2⟩ := lookupKey_some_mem _ _ _ hc
        intro hh
        exact hkey p hpmem (hp2 ▸ (hds.symm.trans hh))

/-- A second service and a destination of it, used for the C3 witness. -/
def apiService : Service := ⟨"api", "10.0.0.3", 81, "tcp", "rr", []⟩

/-- Destination referencing apiService, used for the C3 witness. -/
def apiDest : Destination := ⟨"api-1", "192.168.1.11", 8081, 1, "nat", "api"⟩

/-- Two-service state with one destination on the surviving service. -/
def c3wstate : FusisState :=
  ((emptyState.AddService witService).AddService apiService).AddDestination apiDest

/-- Witness: deleting witService from the two-service state, the
destination visible through the surviving populated service does not
reference the deleted service. -/
theorem delete_service_hides_destinations_witness :
    Destination.serviceId apiDest ≠ Service.GetId witService :=
  (delete_service_hides_destinations c3wstate witService (by decide)).1
    ((c3wstate.DeleteService witService).getDestinations apiService) (by decide)
    apiDest (by decide)

theorem leaveWaitLoop_spec (fuel : Nat) : ∀ (numPeers i : Nat) (polls : Nat → Except String Nat),
    (leaveWaitLoop numPeers polls i fuel).1.length ≤ fuel ∧
    (∀ a ∈ (leaveWaitLoop numPeers polls i fuel).1, a = BalancerAction.pollPeers) ∧
    ((leaveWaitLoop numPeers polls i fuel).2 = 0 ∨
      (leaveWaitLoop numPeers polls i fuel).1.length = fuel ∨
      ∃ j e, polls j = Except.error e) := by
  induction fuel with
  | zero =>
    intro numPeers i polls
    exact ⟨Nat.le_refl 0, fun a ha => absurd ha (List.not_mem_nil a), Or.inr (Or.inl rfl)⟩
  | succ fuel ih =>
    intro numPeers i polls
    unfold leaveWaitLoop
    by_cases hn : numPeers > 0
    · rw [if_pos hn]
      cases hp : polls i with
      | error e =>
        dsimp only
        refine ⟨by simp, ?_, Or.inr (Or.inr ⟨i, e, hp⟩)⟩
        intro a ha
        rw [List.mem_singleton] at ha
        exact ha
      | ok n =>
        dsimp only
        by_cases hz : n = 0
        · rw [if_pos hz]
          refine ⟨by simp, ?_, Or.inl hz⟩
          intro a ha
          rw [List.mem_singleton] at ha
          exact ha
        · rw [if_neg hz]
          obtain ⟨ihl, ihm, ihd⟩ := ih n (i + 1) polls
          refine ⟨?_, ?_, ?_⟩
          · simpa using Nat.succ_le_succ ihl
          · intro a ha
            rcases List.mem_cons.1 ha with ha | ha
            · exact ha
            · exact ihm a ha
          · rcases ihd with hd | hd | hd
            · exact Or.inl hd
            · refine Or.inr (Or.inl ?_)
              simpa using congrArg Nat.succ hd
            · exact Or.inr (Or.inr hd)
    · rw [if_neg hn]
      refine ⟨Nat.zero_le _, fun a ha => absurd ha (List.not_mem_nil a), Or.inl ?_⟩
      exact Nat.eq_zero_of_not_pos hn

theorem leaveWaitLoop_polls (numPeers i fuel : Nat) (polls : Nat → Except String Nat)
    (hn : 0 < numPeers) (hf : 0 < fuel) :
    BalancerAction.pollPeers ∈ (leaveWaitLoop numPeers polls i fuel).1 := by
  cases fuel with
  | zero => exact absurd hf (Nat.lt_irrefl 0)
  | succ fuel =>
    unfold leaveWaitLoop
    rw [if_pos hn]
    cases polls i with
    | error e => exact List.mem_singleton.mpr rfl
    | ok n =>
      dsimp only
      by_cases hz : n = 0
      · rw [if_pos hz]
        exact List.mem_singleton.mpr rfl
      · rw [if_neg hz]
        exact List.mem_cons_self _ _

/-- C9 counterexample: a node that is the raft leader at Leave time, with
other peers still present and a poll oracle that would keep reporting two
peers, leaves the gossip cluster and proceeds straight to consensus
shutdown without a single poll of the peer count — refuting the claim
that on shutdown the node waits, polling the consensus peer count, until
removed or the grace period elapses. -/
theorem leader_leave_no_poll_cex :
    balancerShutdown true (Except.ok 2) (fun _ => Except.ok 2) 100 true
      = [BalancerAction.checkPeers, BalancerAction.serfLeave, BalancerAction.serfShutdown,
         BalancerAction.raftShutdown, BalancerAction.storeClose, BalancerAction.clearPeers] ∧
    BalancerAction.pollPeers ∉
      balancerShutdown true (Except.ok 2) (fun _ => Except.ok 2) 100 true := by
  constructor
  · rfl
  · intro h
    rw [show balancerShutdown true (Except.ok 2) (fun _ => Except.ok 2) 100 true
        = [BalancerAction.checkPeers, BalancerAction.serfLeave, BalancerAction.serfShutdown,
           BalancerAction.raftShutdown, BalancerAction.storeClose, BalancerAction.clearPeers]
      from rfl] at h
    simp at h

/-- C9 (amended): Shutdown first runs Leave — which reads the peer count,
leaves the gossip cluster, and, only when the node is not the leader,
polls the peer count until the node has been removed (count reaches 0),
the bounded grace period (fuel) is exhausted, or a poll fails, warning on
timeout — and only afterwards shuts down gossip and consensus, closes the
log/stable store when one exists, and clears the peer list; the leaving
node never issues a self-removal from the consensus peer set. A leader
performs no polling at all. -/
theorem graceful_leave_spec (isLeader : Bool) (n0 : Nat)
    (polls : Nat → Except String Nat) (fuel : Nat) (hasStore : Bool) :
    (∀ init, BalancerAction.removeSelfPeer ∉ balancerShutdown isLeader init polls fuel hasStore) ∧
    (∃ w, balancerShutdown isLeader (Except.ok n0) polls fuel hasStore
        = [BalancerAction.checkPeers, BalancerAction.serfLeave] ++ w
            ++ [BalancerAction.serfShutdown, BalancerAction.raftShutdown]
            ++ (if hasStore then [BalancerAction.storeClose] else [])
            ++ [BalancerAction.clearPeers] ∧
      (∀ a ∈ w, a = BalancerAction.pollPeers ∨ a = BalancerAction.warnTimeout) ∧
      (isLeader = true → w = []) ∧
      (isLeader = false →
        ((leaveWaitLoop n0 polls 0 fuel).2 = 0 ∨
          (leaveWaitLoop n0 polls 0 fuel).1.length = fuel ∨
          ∃ j e, polls j = Except.error e) ∧
        (leaveWaitLoop n0 polls 0 fuel).1.length ≤ fuel ∧
        (0 < n0 → 0 < fuel → BalancerAction.pollPeers ∈ w))) := by
  obtain ⟨hlen, hmem, hdisj⟩ := leaveWaitLoop_spec fuel n0 0 polls
  constructor
  · intro init
    intro hmem2
    unfold balancerShutdown balancerLeave at hmem2
    cases init with
    | error e =>
      rcases List.mem_append.1 hmem2 with hmem3 | hmem3
      · rcases List.mem_append.1 hmem3 with hmem4 | hmem4
        · rcases List.mem_append.1 hmem4 with hmem5 | hmem5
          · simp at hmem5
          · simp at hmem5
        · by_cases hs : hasStore = true
          · rw [if_pos hs] at hmem4
            simp at hmem4
          · rw [if_neg hs] at hmem4
            simp at hmem4
      · simp at hmem3
    | ok m =>
      rcases List.mem_append.1 hmem2 with hmem3 | hmem3
      · rcases List.mem_append.1 hmem3 with hmem4 | hmem4
        · rcases List.mem_append.1 hmem4 with hmem5 | hmem5
          · rcases List.mem_append.1 hmem5 with hmem6 | hmem6
            · simp at hmem6
            · by_cases hl : isLeader = true
              · rw [if_pos hl] at hmem6
                simp at hmem6
              · rw [if_neg hl] at hmem6
                rcases List.mem_append.1 hmem6 with hmem7 | hmem7
                · obtain ⟨hl2, hm2, _⟩ := leaveWaitLoop_spec fuel m 0 polls
                  have := hm2 _ hmem7
                  cases this
                · by_cases hz : (leaveWaitLoop m polls 0 fuel).2 ≠ 0
                  · rw [if_pos hz] at hmem7
                    simp at hmem7
                  · rw [if_neg hz] at hmem7
                    simp at hmem7
          · simp at hmem5
        · by_cases hs : hasStore = true
          · rw [if_pos hs] at hmem4
            simp at hmem4
          · rw [if_neg hs] at hmem4
            simp at hmem4
      · simp at hmem3
  · refine ⟨if isLeader then []
      else (leaveWaitLoop n0 polls 0 fuel).1
        ++ (if (leaveWaitLoop n0 polls 0 fuel).2 ≠ 0 then [BalancerAction.warnTimeout] else []),
      ?_, ?_, ?_, ?_⟩
    · unfold balancerShutdown balancerLeave
      cases isLeader
      · simp [List.append_assoc]
      · simp [List.append_assoc]
    · intro a ha
      cases hl : isLeader
      · rw [hl] at ha
        simp only [Bool.false_eq_true, if_false] at ha
        rcases List.mem_append.1 ha with ha2 | ha2
        · exact Or.inl (hmem a ha2)
        · by_cases hz : (leaveWaitLoop n0 polls 0 fuel).2 ≠ 0
          · rw [if_pos hz] at ha2
            rw [List.mem_singleton] at ha2
            exact Or.inr ha2
          · rw [if_neg hz] at ha2
            simp at ha2
      · rw [hl] at ha
        simp at ha
    · intro hl
      rw [hl]
      rfl
    · intro hl
      refine ⟨hdisj, hlen, ?_⟩
      intro hn hf
      rw [hl]
      simp only [Bool.false_eq_true, if_false]
      exact List.mem_append.2 (Or.inl (leaveWaitLoop_polls n0 0 fuel polls hn hf))

/-- Witness: a non-leader with one other peer whose first poll reports
zero peers performs exactly one poll between leaving gossip and shutting
down, and never self-removes. -/
theorem graceful_leave_spec_witness :
    balancerShutdown false (Except.ok 1) (fun _ => Except.ok 0) 100 true
      = [BalancerAction.checkPeers, BalancerAction.serfLeave, BalancerAction.pollPeers,
         BalancerAction.serfShutdown, BalancerAction.raftShutdown, BalancerAction.storeClose,
         BalancerAction.clearPeers] ∧
    BalancerAction.removeSelfPeer ∉
      balancerShutdown false (Except.ok 1) (fun _ => Except.ok 0) 100 true := by
  constructor
  · rfl
  · exact (graceful_leave_spec false 1 (fun _ => Except.ok 0) 100 true).1 (Except.ok 1)

/-- One catalog mutation, as issued by the FSM apply path or the restore
path. -/
inductive CatalogOp
  | addSvc (svc : Service)
  | delSvc (svc : Service)
  | addDst (d : Destination)
  | delDst (d : Destination)

/-- Apply one catalog mutation. -/
def applyCatalogOp (st : FusisState) : CatalogOp → FusisState
  | CatalogOp.addSvc s => st.AddService s
  | CatalogOp.delSvc s => st.DeleteService s
  | CatalogOp.addDst d => st.AddDestination d
  | CatalogOp.delDst d => st.DeleteDestination d

/-- A catalog state is reachable when it arises from the empty state by a
sequence of mutations — the only way the single-writer FSM produces
states. -/
def Reachable (st : FusisState) : Prop :=
  ∃ ops : List CatalogOp, st = ops.foldl applyCatalogOp emptyState

/-- Every stored Destination references some stored Service. -/
def NoOrphans (st : FusisState) : Prop :=
  ∀ p ∈ st.destinations, ∃ q ∈ st.services, p.2.serviceId = q.1

theorem keys_mapInsert {α : Type} (m : List (String × α)) (k : String) (v : α) :
    (mapInsert k v m).map (fun p => p.1)
      = if (lookupKey m k).isSome then m.map (fun p => p.1)
        else m.map (fun p => p.1) ++ [k] := by
  unfold mapInsert
  by_cases h : (lookupKey m k).isSome = true
  · rw [if_pos h, if_pos h, List.map_map]
    apply List.map_congr_left
    intro p hp
    show (if p.1 == k then (k, v) else p).1 = p.1
    by_cases hpk : p.1 = k
    · rw [if_pos (by simp [hpk] : (p.1 == k) = true)]
      exact hpk.symm
    · rw [if_neg (by simp [hpk] : ¬((p.1 == k) = true))]
  · rw [if_neg h, if_neg h]
    simp

theorem keys_nodup_mapInsert {α : Type} (m : List (String × α)) (k : String) (v : α)
    (h : (m.map (fun p => p.1)).Nodup) : ((mapInsert k v m).map (fun p => p.1)).Nodup := by
  rw [keys_mapInsert]
  by_cases hs : (lookupKey m k).isSome = true
  · rw [if_pos hs]
    exact h
  · rw [if_neg hs]
    have hnone : lookupKey m k = none := by
      cases hc : lookupKey m k
      · rfl
      · rw [hc] at hs
        simp at hs
    have hk : k ∉ m.map (fun p => p.1) := by
      intro hm
      rcases List.mem_map.1 hm with ⟨p, hp, he⟩
      exact ((lookupKey_eq_none_iff m k).1 hnone p hp) he
    refine List.nodup_append.mpr ⟨h, List.nodup_singleton k, ?_⟩
    intro x hx hxk
    rw [List.mem_singleton] at hxk
    exact hk (hxk ▸ hx)

theorem mem_mapInsert {α : Type} (m : List (String × α)) (k : String) (v : α)
    (q : String × α) (hq : q ∈ mapInsert k v m) : q = (k, v) ∨ q ∈ m := by
  unfold mapInsert at hq
  by_cases h : (lookupKey m k).isSome = true
  · rw [if_pos h] at hq
    rcases List.mem_map.1 hq with ⟨p, hp, he⟩
    by_cases hpk : p.1 = k
    · rw [if_pos (by simp [hpk] : (p.1 == k) = true)] at he
      exact Or.inl he.symm
    · rw [if_neg (by simp [hpk] : ¬((p.1 == k) = true))] at he
      exact Or.inr (he ▸ hp)
  · rw [if_neg h] at hq
    rcases List.mem_append.1 hq with hq | hq
    · exact Or.inr hq
    · rw [List.mem_singleton] at hq
      exact Or.inl hq

theorem keys_nodup_mapErase {α : Type} (m : List (String × α)) (k : String)
    (h : (m.map (fun p => p.1)).Nodup) : ((mapErase k m).map (fun p => p.1)).Nodup := by
  unfold mapErase
  exact ((List.filter_sublist m).map (fun p => p.1)).nodup h

theorem invariant_step (st : FusisState) (op : CatalogOp)
    (h : NodupKeys st ∧ KeysMatch st) :
    NodupKeys (applyCatalogOp st op) ∧ KeysMatch (applyCatalogOp st op) := by
  obtain ⟨⟨hs, hd⟩, ⟨ks, kd⟩⟩ := h
  cases op with
  | addSvc s =>
    refine ⟨⟨keys_nodup_mapInsert _ _ _ hs, hd⟩, ⟨?_, kd⟩⟩
    intro p hp
    rcases mem_mapInsert _ _ _ p hp with he | hm
    · rw [he]
    · exact ks p hm
  | delSvc s =>
    refine ⟨⟨keys_nodup_mapErase _ _ hs, hd⟩, ⟨?_, kd⟩⟩
    intro p hp
    exact ks p (List.mem_of_mem_filter hp)
  | addDst d =>
    refine ⟨⟨hs, keys_nodup_mapInsert _ _ _ hd⟩, ⟨ks, ?_⟩⟩
    intro p hp
    rcases mem_mapInsert _ _ _ p hp with he | hm
    · rw [he]
    · exact kd p hm
  | delDst d =>
    refine ⟨⟨hs, keys_nodup_mapErase _ _ hd⟩, ⟨ks, ?_⟩⟩
    intro p hp
    exact kd p (List.mem_of_mem_filter hp)

theorem reachable_invariant (st : FusisState) (hr : Reachable st) :
    NodupKeys st ∧ KeysMatch st := by
  obtain ⟨ops, rfl⟩ := hr
  have hgen : ∀ (l : List CatalogOp) (s0 : FusisState),
      NodupKeys s0 ∧ KeysMatch s0 →
      NodupKeys (l.foldl applyCatalogOp s0) ∧ KeysMatch (l.foldl applyCatalogOp s0) := by
    intro l
    induction l with
    | nil => exact fun s0 h0 => h0
    | cons op rest ih =>
      intro s0 h0
      rw [List.foldl_cons]
      exact ih _ (invariant_step s0 op h0)
  refine hgen ops emptyState ⟨⟨List.nodup_nil, List.nodup_nil⟩, ⟨?_, ?_⟩⟩
  · intro p hp
    cases hp
  · intro p hp
    cases hp

theorem addDests_services (ds : List Destination) (st : FusisState) :
    (ds.foldl (fun a d => a.AddDestination d) st).services = st.services := by
  induction ds generalizing st with
  | nil => rfl
  | cons d rest ih =>
    rw [List.foldl_cons, ih]
    rfl

theorem addDests_destinations (ds : List Destination) (st : FusisState) :
    (ds.foldl (fun a d => a.AddDestination d) st).destinations
      = ds.foldl (fun m d => mapInsert d.GetId d m) st.destinations := by
  induction ds generalizing st with
  | nil => rfl
  | cons d rest ih =>
    rw [List.foldl_cons, List.foldl_cons, ih]
    rfl

theorem engineRestore_services (l : List Service) (st : FusisState) :
    (engineRestore l st).services
      = l.foldl (fun m s => mapInsert s.GetId s m) st.services := by
  induction l generalizing st with
  | nil => rfl
  | cons s rest ih =>
    unfold engineRestore at ih ⊢
    rw [List.foldl_cons, List.foldl_cons, ih, addDests_services]
    rfl

theorem engineRestore_destinations (l : List Service) (st : FusisState) :
    (engineRestore l st).destinations
      = (l.flatMap (fun s => s.destinations)).foldl
          (fun m d => mapInsert d.GetId d m) st.destinations := by
  induction l generalizing st with
  | nil => rfl
  | cons s rest ih =>
    unfold engineRestore at ih ⊢
    rw [List.foldl_cons, List.flatMap_cons, List.foldl_append, ih, addDests_destinations]
    rfl

theorem foldl_insert_fresh {α : Type} (key : α → String) (l : List α)
    (acc : List (String × α)) (hnd : (l.map key).Nodup)
    (hfresh : ∀ x ∈ l, key x ∉ acc.map (fun p => p.1)) :
    l.foldl (fun m x => mapInsert (key x) x m) acc = acc ++ l.map (fun x => (key x, x)) := by
  induction l generalizing acc with
  | nil => simp
  | cons x rest ih =>
    rw [List.foldl_cons]
    have hnone : lookupKey acc (key x) = none := by
      rw [lookupKey_eq_none_iff]
      intro p hp he
      exact hfresh x (List.mem_cons_self x rest) (he ▸ List.mem_map_of_mem (fun p => p.1) hp)
    rw [mapInsert_of_lookup_none _ _ _ hnone]
    have hnd2 : (rest.map key).Nodup := by
      rw [List.map_cons] at hnd
      exact (List.nodup_cons.1 hnd).2
    have hfresh2 : ∀ y ∈ rest, key y ∉ (acc ++ [(key x, x)]).map (fun p => p.1) := by
      intro y hy hmem
      rw [List.map_append, List.mem_append] at hmem
      rcases hmem with hm | hm
      · exact hfresh y (List.mem_cons_of_mem x hy) hm
      · rw [List.map_cons, List.map_nil, List.mem_singleton] at hm
        have hm2 : key y = key x := hm
        rw [List.map_cons] at hnd
        exact (List.nodup_cons.1 hnd).1 (hm2 ▸ List.mem_map_of_mem key hy)
    rw [ih (acc ++ [(key x, x)]) hnd2 hfresh2]
    rw [List.append_assoc]
    rfl

theorem lookupKey_of_mem_nodup {α : Type} (m : List (String × α)) (p : String × α)
    (hnd : (m.map (fun q => q.1)).Nodup) (hp : p ∈ m) : lookupKey m p.1 = some p.2 := by
  induction m with
  | nil => cases hp
  | cons q rest ih =>
    rcases List.mem_cons.1 hp with he | hp2
    · subst he
      unfold lookupKey
      rw [List.find?_cons_of_pos _ (by simp)]
      rfl
    · have hq : ¬(q.1 = p.1) := by
        rw [List.map_cons] at hnd
        intro hh
        exact (List.nodup_cons.1 hnd).1 (hh ▸ List.mem_map_of_mem (fun r => r.1) hp2)
      unfold lookupKey at ih ⊢
      rw [List.find?_cons_of_neg _ (by simp [hq])]
      refine ih ?_ hp2
      rw [List.map_cons] at hnd
      exact (List.nodup_cons.1 hnd).2

theorem lookupKey_of_perm {α : Type} (m1 m2 : List (String × α)) (h : m1.Perm m2)
    (hnd : (m2.map (fun p => p.1)).Nodup) (n : String) :
    lookupKey m1 n = lookupKey m2 n := by
  have hnd1 : (m1.map (fun p => p.1)).Nodup := ((h.map (fun p => p.1)).nodup_iff).mpr hnd
  cases hc : lookupKey m2 n with
  | some v =>
    obtain ⟨p, hp, hp1, hp2⟩ := lookupKey_some_mem _ _ _ hc
    have hp' : p ∈ m1 := (h.mem_iff).mpr hp
    have := lookupKey_of_mem_nodup m1 p hnd1 hp'
    rw [hp1, hp2] at this
    exact this
  | none =>
    rw [lookupKey_eq_none_iff] at hc ⊢
    intro p hp
    exact hc p ((h.mem_iff).mp hp)

theorem lookupKey_map_entries {α β : Type} (m : List (String × α))
    (f : String × α → β) (n : String) :
    lookupKey (m.map (fun p => (p.1, f p))) n
      = (m.find? (fun p => p.1 == n)).map (fun p => f p) := by
  induction m with
  | nil => rfl
  | cons p rest ih =>
    by_cases hp : p.1 = n
    · unfold lookupKey
      rw [List.map_cons, List.find?_cons_of_pos _ (by simp [hp]),
        List.find?_cons_of_pos _ (by simp [hp])]
      rfl
    · unfold lookupKey at ih ⊢
      rw [List.map_cons, List.find?_cons_of_neg _ (by simp [hp]),
        List.find?_cons_of_neg _ (by simp [hp])]
      exact ih

theorem filter_sid_of_ne (vals : List Destination) (k k2 : String) (hne : k2 ≠ k) :
    (vals.filter (fun d => !(d.serviceId == k))).filter (fun d => d.serviceId == k2)
      = vals.filter (fun d => d.serviceId == k2) := by
  rw [List.filter_filter]
  apply List.filter_congr
  intro d hd
  by_cases hdk : d.serviceId = k
  · have h1 : ¬(d.serviceId = k2) := fun hh => hne (hh ▸ hdk : k2 = k)
    have h2 : ¬(k = k2) := fun hh => hne hh.symm
    simp [hdk, h1, h2]
  · simp [hdk]

theorem flatMapBlocks_perm (keys : List String) (vals : List Destination)
    (hnd : keys.Nodup) (hcov : ∀ d ∈ vals, d.serviceId ∈ keys) :
    (keys.flatMap (fun k => vals.filter (fun d => d.serviceId == k))).Perm vals := by
  induction keys generalizing vals with
  | nil =>
    have hv : vals = [] := by
      cases vals with
      | nil => rfl
      | cons d rest => exact absurd (hcov d (List.mem_cons_self d rest)) (List.not_mem_nil _)
    rw [hv]
    simp
  | cons k ks ih =>
    rw [List.flatMap_cons]
    have hcong : ks.flatMap (fun k2 => vals.filter (fun d => d.serviceId == k2))
        = ks.flatMap (fun k2 =>
            (vals.filter (fun d => !(d.serviceId == k))).filter (fun d => d.serviceId == k2)) := by
      unfold List.flatMap
      congr 1
      apply List.map_congr_left
      intro k2 hk2
      exact (filter_sid_of_ne vals k k2
        (fun hh => (List.nodup_cons.1 hnd).1 (hh ▸ hk2))).symm
    rw [hcong]
    have hcov2 : ∀ d ∈ vals.filter (fun d => !(d.serviceId == k)), d.serviceId ∈ ks := by
      intro d hd
      have hd2 := List.mem_filter.1 hd
      have hne : ¬(d.serviceId = k) := by simpa using hd2.2
      rcases List.mem_cons.1 (hcov d hd2.1) with hh | hh
      · exact absurd hh hne
      · exact hh
    have ihperm := ih (vals.filter (fun d => !(d.serviceId == k)))
      (List.nodup_cons.1 hnd).2 hcov2
    exact List.Perm.trans (List.Perm.append_left _ ihperm) (List.filter_append_perm _ vals)

theorem flatMapBlocks_filter (keys : List String) (vals : List Destination) (k : String)
    (hnd : keys.Nodup) (hk : k ∈ keys) :
    (keys.flatMap (fun q => vals.filter (fun d => d.serviceId == q))).filter
        (fun d => d.serviceId == k)
      = vals.filter (fun d => d.serviceId == k) := by
  induction keys with
  | nil => cases hk
  | cons q ks ih =>
    rw [List.flatMap_cons, List.filter_append]
    by_cases hqk : q = k
    · subst hqk
      have h1 : (vals.filter (fun d => d.serviceId == q)).filter (fun d => d.serviceId == q)
          = vals.filter (fun d => d.serviceId == q) :=
        List.filter_eq_self.mpr (fun a ha => (List.mem_filter.1 ha).2)
      have h2 : (ks.flatMap (fun q2 => vals.filter (fun d => d.serviceId == q2))).filter
          (fun d => d.serviceId == q) = [] := by
        rw [List.filter_eq_nil_iff]
        intro d hd
        rcases List.mem_flatMap.1 hd with ⟨q2, hq2, hdm⟩
        have hdq2 : d.serviceId = q2 := by simpa using (List.mem_filter.1 hdm).2
        have hq2ne : ¬(q2 = q) := fun hh => (List.nodup_cons.1 hnd).1 (hh ▸ hq2)
        simp [hdq2, hq2ne]
      rw [h1, h2, List.append_nil]
    · have h1 : (vals.filter (fun d => d.serviceId == q)).filter (fun d => d.serviceId == k)
          = [] := by
        rw [List.filter_eq_nil_iff]
        intro d hd
        have hdq : d.serviceId = q := by simpa using (List.mem_filter.1 hd).2
        simp [hdq, hqk]
      rw [h1, List.nil_append]
      have hk2 : k ∈ ks := by
        rcases List.mem_cons.1 hk with hh | hh
        · exact absurd hh.symm hqk
        · exact hh
      exact ih (List.nodup_cons.1 hnd).2 hk2

theorem getDestinations_getDestinations (a b : FusisState) (v : Service)
    (h : (a.destinations.map (fun q => q.2)).filter (fun d => d.serviceId == v.GetId)
       = (b.destinations.map (fun q => q.2)).filter (fun d => d.serviceId == v.GetId)) :
    a.getDestinations (b.getDestinations v) = b.getDestinations v := by
  show ({ v with destinations :=
      (a.destinations.map (fun q => q.2)).filter (fun d => d.serviceId == v.GetId) } : Service)
      = { v with destinations :=
      (b.destinations.map (fun q => q.2)).filter (fun d => d.serviceId == v.GetId) }
  rw [h]

/-- C5 (amended): for every reachable catalog state without orphan
destinations, restoring the snapshot slice into an empty catalog yields a
state whose observations all agree with the source: GetService and
GetDestination agree at every name and GetServices returns the same
populated slice. Reachability supplies the Go-map invariants (distinct
keys, entries keyed by their value's id); freedom from orphans is
necessary, as the counterexample shows. -/
theorem snapshot_restore_roundtrip (st : FusisState) (hr : Reachable st)
    (ho : NoOrphans st) :
    ObsEquiv (engineRestore (engineSnapshot st) emptyState) st := by
  obtain ⟨⟨hndS, hndD⟩, ⟨hkmS, hkmD⟩⟩ := reachable_invariant st hr
  have hsnapids : (engineSnapshot st).map Service.GetId = st.services.map (fun p => p.1) := by
    unfold engineSnapshot FusisState.GetServices
    rw [List.map_map]
    apply List.map_congr_left
    intro p hp
    show (st.getDestinations p.2).GetId = p.1
    exact (hkmS p hp).symm
  have hrs : (engineRestore (engineSnapshot st) emptyState).services
      = (engineSnapshot st).map (fun s => (Service.GetId s, s)) := by
    rw [engineRestore_services]
    have hnd1 : ((engineSnapshot st).map Service.GetId).Nodup := by
      rw [hsnapids]
      exact hndS
    have hfr : ∀ x ∈ engineSnapshot st,
        Service.GetId x ∉ (emptyState.services).map (fun p => p.1) := by
      intro x _ hx
      simp [emptyState] at hx
    have := foldl_insert_fresh Service.GetId (engineSnapshot st) emptyState.services hnd1 hfr
    simpa [emptyState] using this
  have hflatEq : (engineSnapshot st).flatMap (fun s => s.destinations)
      = (st.services.map (fun p => p.1)).flatMap
          (fun k => (st.destinations.map (fun p => p.2)).filter
            (fun d => d.serviceId == k)) := by
    unfold engineSnapshot FusisState.GetServices
    rw [List.flatMap_map, List.flatMap_map]
    unfold List.flatMap
    congr 1
    apply List.map_congr_left
    intro p hp
    show (st.destinations.map (fun q => q.2)).filter (fun d => d.serviceId == p.2.GetId)
        = (st.destinations.map (fun q => q.2)).filter (fun d => d.serviceId == p.1)
    rw [hkmS p hp]
  have hDvids : (st.destinations.map (fun p => p.2)).map Destination.GetId
      = st.destinations.map (fun p => p.1) := by
    rw [List.map_map]
    apply List.map_congr_left
    intro p hp
    exact (hkmD p hp).symm
  have hcov : ∀ d ∈ st.destinations.map (fun p => p.2),
      d.serviceId ∈ st.services.map (fun p => p.1) := by
    intro d hd
    rcases List.mem_map.1 hd with ⟨p, hp, he⟩
    obtain ⟨q, hq, hqe⟩ := ho p hp
    subst he
    rw [hqe]
    exact List.mem_map_of_mem (fun r => r.1) hq
  have hflatperm : ((engineSnapshot st).flatMap (fun s => s.destinations)).Perm
      (st.destinations.map (fun p => p.2)) := by
    rw [hflatEq]
    exact flatMapBlocks_perm _ _ hndS hcov
  have hflatids : (((engineSnapshot st).flatMap (fun s => s.destinations)).map
      Destination.GetId).Nodup := by
    rw [(hflatperm.map Destination.GetId).nodup_iff, hDvids]
    exact hndD
  have hrd : (engineRestore (engineSnapshot st) emptyState).destinations
      = ((engineSnapshot st).flatMap (fun s => s.destinations)).map
          (fun d => (Destination.GetId d, d)) := by
    rw [engineRestore_destinations]
    have hfr : ∀ x ∈ (engineSnapshot st).flatMap (fun s => s.destinations),
        Destination.GetId x ∉ (emptyState.destinations).map (fun p => p.1) := by
      intro x _ hx
      simp [emptyState] at hx
    have := foldl_insert_fresh Destination.GetId
      ((engineSnapshot st).flatMap (fun s => s.destinations)) emptyState.destinations
      hflatids hfr
    simpa [emptyState] using this
  have hDpairs : (st.destinations.map (fun p => p.2)).map (fun d => (Destination.GetId d, d))
      = st.destinations := by
    rw [List.map_map]
    have h2 : ∀ p ∈ st.destinations,
        ((fun d => (Destination.GetId d, d)) ∘ (fun q => q.2)) p = id p := by
      intro p hp
      show (p.2.GetId, p.2) = p
      obtain ⟨p1, p2⟩ := p
      have hkm := hkmD ⟨p1, p2⟩ hp
      simp only at hkm
      show (p2.GetId, p2) = (p1, p2)
      rw [← hkm]
    rw [List.map_congr_left h2, List.map_id]
  have hrdperm : (engineRestore (engineSnapshot st) emptyState).destinations.Perm
      st.destinations := by
    rw [hrd]
    have hmp := hflatperm.map (fun d => (Destination.GetId d, d))
    rw [hDpairs] at hmp
    exact hmp
  have hgd : ∀ n, (engineRestore (engineSnapshot st) emptyState).GetDestination n
      = st.GetDestination n := by
    intro n
    unfold FusisState.GetDestination
    rw [lookupKey_of_perm _ _ hrdperm hndD n]
  have hvals : (engineRestore (engineSnapshot st) emptyState).destinations.map (fun q => q.2)
      = (engineSnapshot st).flatMap (fun s => s.destinations) := by
    rw [hrd, List.map_map]
    have h2 : ∀ d ∈ (engineSnapshot st).flatMap (fun s => s.destinations),
        ((fun q : String × Destination => q.2) ∘ (fun d => (Destination.GetId d, d))) d
          = id d := fun d _ => rfl
    rw [List.map_congr_left h2, List.map_id]
  have hrs2 : (engineRestore (engineSnapshot st) emptyState).services
      = st.services.map (fun p => (p.1, st.getDestinations p.2)) := by
    rw [hrs]
    unfold engineSnapshot FusisState.GetServices
    rw [List.map_map]
    apply List.map_congr_left
    intro p hp
    show (Service.GetId (st.getDestinations p.2), st.getDestinations p.2)
        = (p.1, st.getDestinations p.2)
    have hg : Service.GetId (st.getDestinations p.2) = p.1 := (hkmS p hp).symm
    rw [hg]
  have hpop : ∀ p ∈ st.services,
      (engineRestore (engineSnapshot st) emptyState).getDestinations
        (st.getDestinations p.2) = st.getDestinations p.2 := by
    intro p hp
    apply getDestinations_getDestinations
    rw [hvals, hflatEq]
    show (((st.services.map (fun p => p.1)).flatMap
        (fun k => (st.destinations.map (fun p => p.2)).filter
          (fun d => d.serviceId == k))).filter (fun d => d.serviceId == p.2.GetId))
      = (st.destinations.map (fun q => q.2)).filter (fun d => d.serviceId == p.2.GetId)
    rw [← hkmS p hp]
    exact flatMapBlocks_filter _ _ p.1 hndS (List.mem_map_of_mem (fun q => q.1) hp)
  have hgs : ∀ n, (engineRestore (engineSnapshot st) emptyState).GetService n
      = st.GetService n := by
    intro n
    unfold FusisState.GetService
    rw [hrs2, lookupKey_map_entries st.services (fun p => st.getDestinations p.2) n]
    unfold lookupKey
    cases hf : st.services.find? (fun p => p.1 == n) with
    | none => rfl
    | some p =>
      simp only [Option.map_some', Option.getD_some]
      by_cases hn0 : p.2.name = ""
      · rw [if_pos (show (st.getDestinations p.2).name = "" from hn0), if_pos hn0]
      · rw [if_neg (show ¬((st.getDestinations p.2).name = "") from hn0),
          if_neg hn0]
        have hp : p ∈ st.services := List.mem_of_find?_eq_some hf
        rw [hpop p hp]
  have hgss : (engineRestore (engineSnapshot st) emptyState).GetServices
      = st.GetServices := by
    unfold FusisState.GetServices
    rw [hrs2, List.map_map]
    apply List.map_congr_left
    intro p hp
    show (engineRestore (engineSnapshot st) emptyState).getDestinations
        (st.getDestinations p.2) = st.getDestinations p.2
    exact hpop p hp
  refine ⟨hgs, hgd, ?_⟩
  rw [hgss]

/-- A reachable state holding an orphan destination: add a service, add
its destination, then delete the service (DeleteService does not cascade). -/
def orphanState : FusisState :=
  [CatalogOp.addSvc witService, CatalogOp.addDst witDest,
    CatalogOp.delSvc witService].foldl applyCatalogOp emptyState

/-- C5 counterexample: the reachable state with an orphan destination
round-trips to a catalog that lost the orphan — GetDestination observes
the destination in the source but not in the snapshot-restored copy — so
a snapshot followed by restore on an empty node does not always yield an
observably equal Catalog. -/
theorem snapshot_restore_orphan_cex :
    orphanState.GetDestination "web-1" = Except.ok witDest ∧
    (engineRestore (engineSnapshot orphanState) emptyState).GetDestination "web-1"
      = Except.error StateErr.destinationNotFound ∧
    ¬ ObsEquiv (engineRestore (engineSnapshot orphanState) emptyState) orphanState := by
  refine ⟨rfl, rfl, ?_⟩
  intro h
  have h2 := h.2.1 "web-1"
  rw [show (engineRestore (engineSnapshot orphanState) emptyState).GetDestination "web-1"
      = Except.error StateErr.destinationNotFound from rfl] at h2
  rw [show orphanState.GetDestination "web-1" = Except.ok witDest from rfl] at h2
  cases h2

/-- The orphan-free reachable state used by the round-trip witness. -/
def roundtripState : FusisState :=
  [CatalogOp.addSvc witService, CatalogOp.addDst witDest].foldl applyCatalogOp emptyState

/-- Witness: the round-trip theorem applied to a concrete reachable
orphan-free state. -/
theorem snapshot_restore_roundtrip_witness :
    ObsEquiv (engineRestore (engineSnapshot roundtripState) emptyState) roundtripState :=
  snapshot_restore_roundtrip roundtripState
    ⟨[CatalogOp.addSvc witService, CatalogOp.addDst witDest], rfl⟩
    (by unfold NoOrphans; decide)

end Fusis
